import Mathlib

/-!
# payshares-core: FetchRecentQsetsWork and HerderUtils

A shallow embedding of `src/historywork/FetchRecentQsetsWork.cpp` (the work
node that fetches the remote archive state, downloads recent SCP checkpoint
files and scans them for quorum sets) and of `src/herder/HerderUtils.cpp`
(`getTxSetHashes`, `getPaysharesValues`), together with the properties of the
specification that are stated about them.

`uint32_t` values are natural numbers below `2 ^ 32`; every arithmetic
operation of the source is followed by an explicit reduction modulo `2 ^ 32`.
-/

namespace Payshares

/-! ## 32-bit unsigned arithmetic -/

/-- Number of values of a `uint32_t`. -/
def UINT32_SIZE : Nat := 4294967296

/-- Conversion to `uint32_t`. -/
def toU32 (n : Nat) : Nat := n % UINT32_SIZE

/-- The `uint32_t` product `a * b`. -/
def mulU32 (a b : Nat) : Nat := (a * b) % UINT32_SIZE

/-- The `uint32_t` difference `a - b` (operands below `2 ^ 32`). -/
def subU32 (a b : Nat) : Nat := (a + UINT32_SIZE - b) % UINT32_SIZE

/-- The `uint32_t` sum `a + b`. -/
def addU32 (a b : Nat) : Nat := (a + b) % UINT32_SIZE

/-! ## Window sizing (`FetchRecentQsetsWork::onSuccess`, lines 63-67) -/

/-- Line 63: `uint32_t numCheckpoints = 100;`. -/
def numCheckpoints : Nat := 100

/-- Line 65: `uint32_t window = numCheckpoints * step;`. -/
def window (step : Nat) : Nat := mulU32 numCheckpoints step

/-- Line 67:
`uint32_t firstSeq = lastSeq < window ? (step - 1) : (lastSeq - window);`. -/
def firstSeq (step lastSeq : Nat) : Nat :=
  if lastSeq < window step then subU32 step 1 else subU32 lastSeq (window step)

/-- The aggregate `CheckpointRange{first, last, step}` built on line 73. -/
structure CheckpointRange where
  first : Nat
  last : Nat
  step : Nat
deriving DecidableEq

/-- The two invariants the specification gives for a `CheckpointRange`. -/
def CheckpointRange.valid (r : CheckpointRange) : Prop :=
  r.first ≤ r.last ∧ (r.last - r.first) % r.step = 0

instance (r : CheckpointRange) : Decidable r.valid := by
  unfold CheckpointRange.valid; infer_instance

/-- The enumeration `first, first + step, ..., last` that the specification
attaches to a `CheckpointRange`. -/
def enumeration (first last step : Nat) : List Nat :=
  (List.range ((last - first) / step + 1)).map (fun k => first + step * k)

/-! ## The work node -/

/-- The two values of `Work::State` that `onSuccess` returns. -/
inductive State where
  | WORK_PENDING
  | WORK_SUCCESS
deriving DecidableEq

/-- The `asio::error_code` values handed to the end handler: the
default-constructed (zero) code of line 93 and `std::errc::timed_out` of
line 44. -/
inductive ErrorCode where
  | success
  | timed_out
deriving DecidableEq

/-- A child work added with `addWork`. -/
inductive Child where
  /-- Lines 54-56: `addWork<GetHistoryArchiveStateWork>` with its name, the
  sequence argument `0` and the delay `std::chrono::seconds(0)`. -/
  | getHistoryArchiveStateWork (name : String) (seq : Nat) (initialDelay : Nat)
  /-- Lines 74-75: `addWork<BatchDownloadWork>(range, HISTORY_FILE_TYPE_SCP,
  *mDownloadDir)`. -/
  | batchDownloadWork (range : CheckpointRange) (dir : Option Nat)
deriving DecidableEq

/-- An `SCPHistoryEntry` read from a checkpoint file; the scan never looks
inside one, so an entry is identified by a number. -/
abbrev SCPHistoryEntry := Nat

/-- What the node does to its surroundings, recorded in the order done. -/
inductive Event where
  /-- Line 85: `in.open(fi.localPath_nogz())` on the file of a checkpoint. -/
  | opened (checkpoint : Nat)
  /-- Line 89: `mInferredQuorum.noteSCPHistory(tmp)`. -/
  | noted (entry : SCPHistoryEntry)
  /-- Lines 45 and 94: `mEndHandler(ec)`. -/
  | handler (ec : ErrorCode)
deriving DecidableEq

/-- The error code of a handler call, nothing for another event. -/
def Event.handlerCode : Event → Option ErrorCode
  | Event.handler ec => some ec
  | _ => none

/-- The checkpoint of a file opening, nothing for another event. -/
def Event.openedFile : Event → Option Nat
  | Event.opened checkpoint => some checkpoint
  | _ => none

/-- The entry of a `noteSCPHistory` call, nothing for another event. -/
def Event.notedEntry : Event → Option SCPHistoryEntry
  | Event.noted entry => some entry
  | _ => none

/-- The calls of `mEndHandler` among some events, oldest first. -/
def handlerCalls (events : List Event) : List ErrorCode :=
  events.filterMap Event.handlerCode

/-- The checkpoint files opened among some events, oldest first. -/
def openedFiles (events : List Event) : List Nat :=
  events.filterMap Event.openedFile

/-- The entries passed to `noteSCPHistory` among some events, oldest first. -/
def notedEntries (events : List Event) : List SCPHistoryEntry :=
  events.filterMap Event.notedEntry

/-- What scanning the files of the given checkpoints, in the order given,
amounts to in the words of the specification: each file is opened and every
entry it holds is fed to the inference engine. -/
def scanEvents (files : Nat → List SCPHistoryEntry) (checkpoints : List Nat) : List Event :=
  checkpoints.flatMap (fun i => Event.opened i :: (files i).map Event.noted)

/-- The members of `FetchRecentQsetsWork` and the trace of what its calls did
to the end handler, the inference engine and the file system. -/
structure FetchRecentQsetsWork where
  /-- Children held by the `WorkParent` base (`addWork`, `clearChildren`). -/
  mChildren : List Child
  /-- Handle of the phase-1 child; `none` is the null pointer. -/
  mGetHistoryArchiveStateWork : Option Child
  /-- Handle of the phase-2 child; `none` is the null pointer. -/
  mDownloadSCPMessagesWork : Option Child
  /-- The staging directory, `none` until `onReset` allocates one. -/
  mDownloadDir : Option Nat
  /-- The field `mRemoteState.currentLedger`; written by the phase-1 child
  through the reference passed on line 55, read on line 66. -/
  mRemoteState : Nat
  /-- Calls of `mEndHandler` and `noteSCPHistory` and file openings, oldest
  first. -/
  events : List Event
deriving DecidableEq

/-- What `onSuccess` reads from its surroundings. -/
structure Application where
  /-- Result of `mApp.getHistoryManager().getCheckpointFrequency()`. -/
  checkpointFrequency : Nat
  /-- The entries that `readOne` yields, in order, from the SCP file of a
  checkpoint in the staging directory (none for a file that does not open). -/
  files : Nat → List SCPHistoryEntry

/-- The node as the constructor (lines 18-25) leaves it. -/
def constructed : FetchRecentQsetsWork :=
  { mChildren := [], mGetHistoryArchiveStateWork := none,
    mDownloadSCPMessagesWork := none, mDownloadDir := none, mRemoteState := 0,
    events := [] }

/-- Lines 32-39, `onReset`: `clearChildren()`, `mDownloadSCPMessagesWork.reset()`
and a new `TmpDir`, here `dir`, handed out by the `TmpDirManager`. -/
def onReset (dir : Nat) (w : FetchRecentQsetsWork) : FetchRecentQsetsWork :=
  { w with mChildren := [], mDownloadSCPMessagesWork := none, mDownloadDir := some dir }

/-- Lines 41-46, `onFailureRaise`. -/
def onFailureRaise (w : FetchRecentQsetsWork) : FetchRecentQsetsWork :=
  { w with events := w.events ++ [Event.handler ErrorCode.timed_out] }

/-- Lines 86-90: the inner `while (in && in.readOne(tmp))` loop, one call of
`noteSCPHistory` for each entry the reader yields. -/
def readAll : List SCPHistoryEntry → List Event → List Event
  | [], events => events
  | tmp :: rest, events => readAll rest (events ++ [Event.noted tmp])

/-- Lines 80-91: `for (uint32_t i = firstSeq; i <= lastSeq; i += step)`.
`fuel` bounds the number of times the loop condition is evaluated; `none`
means the loop is still running when the fuel is spent. -/
def scanLoop (files : Nat → List SCPHistoryEntry) (lastSeq step : Nat) :
    Nat → Nat → List Event → Option (List Event)
  | 0, _, _ => none
  | fuel + 1, i, events =>
    if i ≤ lastSeq then
      scanLoop files lastSeq step fuel (addU32 i step)
        (readAll (files i) (events ++ [Event.opened i]))
    else
      some events

/-- Lines 79-95, phase 3: the scan, then the end handler with a zero error
code, then `return WORK_SUCCESS`. -/
def scanPhase (fuel : Nat) (files : Nat → List SCPHistoryEntry)
    (first last step : Nat) (w : FetchRecentQsetsWork) :
    Option (FetchRecentQsetsWork × State) :=
  match scanLoop files last step fuel first w.events with
  | none => none
  | some events =>
    some ({ w with events := events ++ [Event.handler ErrorCode.success] },
          State.WORK_SUCCESS)

/-- Lines 48-96, `onSuccess`. -/
def onSuccess (fuel : Nat) (app : Application) (w : FetchRecentQsetsWork) :
    Option (FetchRecentQsetsWork × State) :=
  -- Phase 1
  if w.mGetHistoryArchiveStateWork.isNone then
    let child := Child.getHistoryArchiveStateWork "get-history-archive-state" 0 0
    some ({ w with mChildren := w.mChildren ++ [child],
                   mGetHistoryArchiveStateWork := some child },
          State.WORK_PENDING)
  else
    -- Phase 2
    let step := toU32 app.checkpointFrequency
    let lastSeq := toU32 w.mRemoteState
    let first := firstSeq step lastSeq
    if w.mDownloadSCPMessagesWork.isNone then
      let range : CheckpointRange := { first := first, last := lastSeq, step := step }
      let child := Child.batchDownloadWork range w.mDownloadDir
      some ({ w with mChildren := w.mChildren ++ [child],
                     mDownloadSCPMessagesWork := some child },
            State.WORK_PENDING)
    else
      -- Phase 3
      scanPhase fuel app.files first lastSeq step w

/-! ## Driving the node -/

/-- Modelled from the spec: the ArchiveStateFetcher child, which is not among
the sources; "on success stores the resulting ArchiveState", here the archive's
current checkpoint sequence, into the state the orchestrator holds. -/
def archiveStateFetched (currentLedger : Nat) (w : FetchRecentQsetsWork) :
    FetchRecentQsetsWork :=
  { w with mRemoteState := currentLedger }

/-- What the children do between two calls of `onSuccess`: nothing that the
node reads, or the archive-state child stores a ledger number. -/
def childrenRun : Option Nat → FetchRecentQsetsWork → FetchRecentQsetsWork
  | none, w => w
  | some currentLedger, w => archiveStateFetched currentLedger w

/-- One scheduling round: the children run, then `onSuccess` is called with
the given fuel and surroundings. -/
structure Round where
  fuel : Nat
  app : Application
  stored : Option Nat

/-- A sequence of rounds: the final state and what each call returned, or
`none` when some call does not return. -/
def runRounds : List Round → FetchRecentQsetsWork → Option (FetchRecentQsetsWork × List State)
  | [], w => some (w, [])
  | r :: rs, w =>
    match onSuccess r.fuel r.app (childrenRun r.stored w) with
    | none => none
    | some (w1, st) =>
      match runRounds rs w1 with
      | none => none
      | some (w2, sts) => some (w2, st :: sts)

/-- States a node can be in after any sequence of `onSuccess`, `onReset` and
`onFailureRaise` calls, with the archive-state child storing ledger numbers
in between. -/
inductive Reachable : FetchRecentQsetsWork → Prop where
  | init : Reachable constructed
  | step {w w1 : FetchRecentQsetsWork} {st : State} (fuel : Nat) (app : Application) :
      Reachable w → onSuccess fuel app w = some (w1, st) → Reachable w1
  | reset {w : FetchRecentQsetsWork} (dir : Nat) : Reachable w → Reachable (onReset dir w)
  | failure {w : FetchRecentQsetsWork} : Reachable w → Reachable (onFailureRaise w)
  | fetched {w : FetchRecentQsetsWork} (l : Nat) :
      Reachable w → Reachable (archiveStateFetched l w)

/-! ## HerderUtils -/

/-- `std::vector::resize(n)` with value-initialised new elements `d`. -/
def resize {α : Type} (xs : List α) (n : Nat) (d : α) : List α :=
  xs.take n ++ List.replicate (n - xs.length) d

/-- `std::transform(first, last, out, f)`: writes `f` of the `k`-th source
element to position `i + k` of the destination. -/
def transform {α β : Type} (f : α → β) : List α → Nat → List β → List β
  | [], _, dst => dst
  | x :: xs, i, dst => transform f xs (i + 1) (dst.set i (f x))

/-- The fields of `PaysharesValue` that the code names. -/
structure PaysharesValue (Hash Rest : Type) where
  txSetHash : Hash
  rest : Rest

/-- What `HerderUtils.cpp` takes from other files: `Slot::getStatementValues`,
`xdr::xdr_from_opaque` (which fills the value it is given) and the
value-initialised `PaysharesValue{}` and `Hash`. -/
structure HerderEnv (Statement Value Hash Rest : Type) where
  getStatementValues : Statement → List Value
  xdr_from_opaque : Value → PaysharesValue Hash Rest → PaysharesValue Hash Rest
  emptyValue : PaysharesValue Hash Rest
  emptyHash : Hash

/-- An `SCPEnvelope`, of which only the statement is read. -/
structure SCPEnvelope (Statement : Type) where
  statement : Statement

section Herder

variable {Statement Value Hash Rest : Type}

/-- Lines 27-42 of `HerderUtils.cpp`. -/
def getPaysharesValues (env : HerderEnv Statement Value Hash Rest) (statement : Statement) :
    List (PaysharesValue Hash Rest) :=
  let values := env.getStatementValues statement
  let result : List (PaysharesValue Hash Rest) := []
  let result := resize result values.length env.emptyValue
  transform (fun v => let wb := env.emptyValue; env.xdr_from_opaque v wb) values 0 result

/-- Lines 14-25 of `HerderUtils.cpp`. -/
def getTxSetHashes (env : HerderEnv Statement Value Hash Rest)
    (envelope : SCPEnvelope Statement) : List Hash :=
  let values := getPaysharesValues env envelope.statement
  let result : List Hash := []
  let result := resize result values.length env.emptyHash
  transform (fun sv => sv.txSetHash) values 0 result

end Herder

/-! ## Arithmetic lemmas -/

theorem subU32_one {step : Nat} (hs : step < UINT32_SIZE) (hpos : 0 < step) :
    subU32 step 1 = step - 1 := by
  unfold subU32 UINT32_SIZE at *
  omega

theorem subU32_of_le {a b : Nat} (ha : a < UINT32_SIZE) (hba : b ≤ a) :
    subU32 a b = a - b := by
  unfold subU32 UINT32_SIZE at *
  omega

theorem window_lt (step : Nat) : window step < UINT32_SIZE := by
  unfold window mulU32
  exact Nat.mod_lt _ (by decide)

theorem window_of_no_wrap {step : Nat} (h : numCheckpoints * step < UINT32_SIZE) :
    window step = numCheckpoints * step := by
  unfold window mulU32
  exact Nat.mod_eq_of_lt h

theorem window_pos_step {step last : Nat} (h : last < window step) : 0 < step := by
  rcases Nat.eq_zero_or_pos step with h0 | h0
  · subst h0
    simp [window, mulU32] at h
  · exact h0

theorem firstSeq_of_lt {step last : Nat} (hs : step < UINT32_SIZE) (h : last < window step) :
    firstSeq step last = step - 1 := by
  unfold firstSeq
  rw [if_pos h]
  exact subU32_one hs (window_pos_step h)

theorem firstSeq_of_ge {step last : Nat} (hl : last < UINT32_SIZE) (h : window step ≤ last) :
    firstSeq step last = last - window step := by
  unfold firstSeq
  rw [if_neg (by omega)]
  exact subU32_of_le hl h

/-! ## The scan loop -/

theorem readAll_eq (entries : List SCPHistoryEntry) (events : List Event) :
    readAll entries events = events ++ entries.map Event.noted := by
  induction entries generalizing events with
  | nil => simp [readAll]
  | cons e rest ih => simp [readAll, ih]

theorem scanEvents_nil (files : Nat → List SCPHistoryEntry) : scanEvents files [] = [] := rfl

theorem scanEvents_cons (files : Nat → List SCPHistoryEntry) (i : Nat) (rest : List Nat) :
    scanEvents files (i :: rest) =
      Event.opened i :: (files i).map Event.noted ++ scanEvents files rest := by
  simp [scanEvents, List.flatMap_cons]

theorem handlerCalls_append (xs ys : List Event) :
    handlerCalls (xs ++ ys) = handlerCalls xs ++ handlerCalls ys :=
  List.filterMap_append _ _ _

theorem openedFiles_append (xs ys : List Event) :
    openedFiles (xs ++ ys) = openedFiles xs ++ openedFiles ys :=
  List.filterMap_append _ _ _

theorem notedEntries_append (xs ys : List Event) :
    notedEntries (xs ++ ys) = notedEntries xs ++ notedEntries ys :=
  List.filterMap_append _ _ _

theorem handlerCalls_noted (entries : List SCPHistoryEntry) :
    handlerCalls (entries.map Event.noted) = [] := by
  induction entries with
  | nil => rfl
  | cons e rest ih => simp [handlerCalls, Event.handlerCode]

theorem openedFiles_noted (entries : List SCPHistoryEntry) :
    openedFiles (entries.map Event.noted) = [] := by
  induction entries with
  | nil => rfl
  | cons e rest ih => simp [openedFiles, Event.openedFile]

theorem notedEntries_noted (entries : List SCPHistoryEntry) :
    notedEntries (entries.map Event.noted) = entries := by
  induction entries with
  | nil => rfl
  | cons e rest ih => simpa [notedEntries, Event.notedEntry] using ih

/-- A scan invokes no handler. -/
theorem handlerCalls_scanEvents (files : Nat → List SCPHistoryEntry) (cps : List Nat) :
    handlerCalls (scanEvents files cps) = [] := by
  induction cps with
  | nil => rfl
  | cons i rest ih =>
    rw [scanEvents_cons, ← List.singleton_append, List.append_assoc, handlerCalls_append,
      handlerCalls_append, handlerCalls_noted, ih]
    rfl

/-- The files a scan opens are the checkpoints it is given, in their order. -/
theorem openedFiles_scanEvents (files : Nat → List SCPHistoryEntry) (cps : List Nat) :
    openedFiles (scanEvents files cps) = cps := by
  induction cps with
  | nil => rfl
  | cons i rest ih =>
    rw [scanEvents_cons, ← List.singleton_append, List.append_assoc, openedFiles_append,
      openedFiles_append, openedFiles_noted, ih]
    rfl

/-- The entries a scan notes are those of its files, file after file. -/
theorem notedEntries_scanEvents (files : Nat → List SCPHistoryEntry) (cps : List Nat) :
    notedEntries (scanEvents files cps) = cps.flatMap files := by
  induction cps with
  | nil => rfl
  | cons i rest ih =>
    rw [scanEvents_cons, ← List.singleton_append, List.append_assoc, notedEntries_append,
      notedEntries_append, notedEntries_noted, ih, List.flatMap_cons]
    rfl

theorem addU32_of_lt {a b : Nat} (h : a + b < UINT32_SIZE) : addU32 a b = a + b := by
  unfold addU32
  exact Nat.mod_eq_of_lt h

theorem range_succ_map_affine (i step m : Nat) :
    (List.range (m + 1)).map (fun k => i + step * k) =
      i :: (List.range m).map (fun k => i + step + step * k) := by
  rw [List.range_succ_eq_map, List.map_cons, List.map_map]
  refine congrArg₂ _ (by simp) (List.map_congr_left fun k _ => ?_)
  simp only [Function.comp, Nat.succ_eq_add_one]
  rw [Nat.mul_add, Nat.mul_one]
  omega

/-- The loop makes `m` passes, over `i, i + step, ...`, when no counter value
up to `lastSeq + step` wraps around. -/
theorem scanLoop_passes (files : Nat → List SCPHistoryEntry) (lastSeq step : Nat)
    (hwrap : lastSeq + step < UINT32_SIZE) :
    ∀ (m i fuel : Nat) (events : List Event), lastSeq < i + step * m →
      (∀ k, k < m → i + step * k ≤ lastSeq) → m + 1 ≤ fuel →
      scanLoop files lastSeq step fuel i events =
        some (events ++ scanEvents files ((List.range m).map (fun k => i + step * k))) := by
  intro m
  induction m with
  | zero =>
    intro i fuel events hgt _ hfuel
    obtain ⟨f, rfl⟩ : ∃ f, fuel = f + 1 := ⟨fuel - 1, by omega⟩
    have hi : ¬ i ≤ lastSeq := by simpa using hgt
    simp [scanLoop, hi, scanEvents_nil]
  | succ m ih =>
    intro i fuel events hgt hin hfuel
    obtain ⟨f, rfl⟩ : ∃ f, fuel = f + 1 := ⟨fuel - 1, by omega⟩
    have hi : i ≤ lastSeq := by simpa using hin 0 (Nat.succ_pos m)
    have hadd : addU32 i step = i + step := addU32_of_lt (by omega)
    have hgt1 : lastSeq < i + step + step * m := by
      rw [Nat.mul_add, Nat.mul_one] at hgt
      omega
    have hin1 : ∀ k, k < m → i + step + step * k ≤ lastSeq := by
      intro k hk
      have h := hin (k + 1) (by omega)
      rw [Nat.mul_add, Nat.mul_one] at h
      omega
    rw [scanLoop, if_pos hi, hadd, ih (i + step) f _ hgt1 hin1 (by omega),
      range_succ_map_affine, readAll_eq, scanEvents_cons]
    simp [List.append_assoc]

/-- Whatever the fuel, a scan that returns has appended the scan of some
list of checkpoints. -/
theorem scanLoop_appends (files : Nat → List SCPHistoryEntry) (lastSeq step : Nat) :
    ∀ (fuel i : Nat) (events result : List Event),
      scanLoop files lastSeq step fuel i events = some result →
      ∃ (cps : List Nat), result = events ++ scanEvents files cps := by
  intro fuel
  induction fuel with
  | zero =>
    intro i events result h
    rw [scanLoop] at h
    cases h
  | succ f ih =>
    intro i events result h
    rw [scanLoop] at h
    by_cases hi : i ≤ lastSeq
    · rw [if_pos hi] at h
      obtain ⟨cps, hcps⟩ := ih _ _ _ h
      refine ⟨i :: cps, ?_⟩
      rw [hcps, readAll_eq, scanEvents_cons]
      simp [List.append_assoc]
    · rw [if_neg hi] at h
      simp only [Option.some.injEq] at h
      exact ⟨[], by rw [← h, scanEvents_nil, List.append_nil]⟩

/-- When `lastSeq` is the largest `uint32_t`, the loop condition
`i <= lastSeq` holds for every counter value and the loop never exits. -/
theorem scanLoop_never_exits (files : Nat → List SCPHistoryEntry) (step : Nat) :
    ∀ (fuel i : Nat) (events : List Event), i < UINT32_SIZE →
      scanLoop files 4294967295 step fuel i events = none := by
  intro fuel
  induction fuel with
  | zero => intro i events _; rfl
  | succ f ih =>
    intro i events hi
    have hle : i ≤ 4294967295 := by unfold UINT32_SIZE at hi; omega
    rw [scanLoop, if_pos hle]
    exact ih _ _ (Nat.mod_lt _ (by decide))

theorem enumeration_pairwise (first last step : Nat) (hstep : 0 < step) :
    (enumeration first last step).Pairwise (fun a b => a < b) := by
  unfold enumeration
  refine List.Pairwise.map _ (fun a b hab => ?_) (List.pairwise_lt_range _)
  have := Nat.mul_lt_mul_of_pos_left hab hstep
  omega

theorem enumeration_head (first last step : Nat) :
    (enumeration first last step).head? = some first := by
  simp [enumeration, List.head?_map, List.head?_range]

theorem enumeration_getLast (first last step : Nat) (hle : first ≤ last)
    (hmod : (last - first) % step = 0) :
    (enumeration first last step).getLast? = some last := by
  have h := Nat.div_add_mod (last - first) step
  rw [hmod, Nat.add_zero] at h
  simp [enumeration, List.getLast?_map, List.getLast?_range]
  omega

theorem mem_enumeration (first last step i : Nat) (hle : first ≤ last)
    (hmod : (last - first) % step = 0) :
    i ∈ enumeration first last step ↔ first ≤ i ∧ i ≤ last ∧ (i - first) % step = 0 := by
  have hdm := Nat.div_add_mod (last - first) step
  rw [hmod, Nat.add_zero] at hdm
  unfold enumeration
  simp only [List.mem_map, List.mem_range]
  constructor
  · rintro ⟨k, hk, rfl⟩
    have hmul : step * k ≤ step * ((last - first) / step) := Nat.mul_le_mul_left _ (by omega)
    refine ⟨by omega, by omega, ?_⟩
    rw [Nat.add_sub_cancel_left]
    exact Nat.mul_mod_right _ _
  · rintro ⟨h1, h2, h3⟩
    have hi := Nat.div_add_mod (i - first) step
    rw [h3, Nat.add_zero] at hi
    refine ⟨(i - first) / step, ?_, by omega⟩
    have hlt : (i - first) / step ≤ (last - first) / step :=
      Nat.div_le_div_right (by omega)
    omega

/-- The scan phase over a range whose counter does not wrap. -/
theorem scanPhase_eq (files : Nat → List SCPHistoryEntry) (first last step fuel : Nat)
    (w : FetchRecentQsetsWork) (hstep : 0 < step) (hle : first ≤ last)
    (hwrap : last + step < UINT32_SIZE) (hfuel : (last - first) / step + 2 ≤ fuel) :
    scanPhase fuel files first last step w =
      some ({ w with events := w.events ++ scanEvents files (enumeration first last step) ++
                       [Event.handler ErrorCode.success] },
            State.WORK_SUCCESS) := by
  have hdm := Nat.div_add_mod (last - first) step
  have hlt := Nat.mod_lt (last - first) hstep
  have hgt : last < first + step * ((last - first) / step + 1) := by
    rw [Nat.mul_add, Nat.mul_one]
    omega
  have hin : ∀ k, k < (last - first) / step + 1 → first + step * k ≤ last := by
    intro k hk
    have : step * k ≤ step * ((last - first) / step) :=
      Nat.mul_le_mul_left _ (by omega)
    omega
  unfold scanPhase
  rw [scanLoop_passes files last step hwrap _ first fuel _ hgt hin (by omega)]
  rfl

/-! ## The three phases of `onSuccess` -/

theorem onSuccess_phase1 (fuel : Nat) (app : Application) (w : FetchRecentQsetsWork)
    (h : w.mGetHistoryArchiveStateWork = none) :
    onSuccess fuel app w =
      some ({ w with
                mChildren := w.mChildren ++
                  [Child.getHistoryArchiveStateWork "get-history-archive-state" 0 0],
                mGetHistoryArchiveStateWork :=
                  some (Child.getHistoryArchiveStateWork "get-history-archive-state" 0 0) },
            State.WORK_PENDING) := by
  simp [onSuccess, h]

theorem onSuccess_phase2 (fuel : Nat) (app : Application) (w : FetchRecentQsetsWork)
    (h1 : w.mGetHistoryArchiveStateWork.isSome) (h2 : w.mDownloadSCPMessagesWork = none) :
    onSuccess fuel app w =
      some ({ w with
                mChildren := w.mChildren ++
                  [Child.batchDownloadWork
                    { first := firstSeq (toU32 app.checkpointFrequency) (toU32 w.mRemoteState),
                      last := toU32 w.mRemoteState,
                      step := toU32 app.checkpointFrequency } w.mDownloadDir],
                mDownloadSCPMessagesWork :=
                  some (Child.batchDownloadWork
                    { first := firstSeq (toU32 app.checkpointFrequency) (toU32 w.mRemoteState),
                      last := toU32 w.mRemoteState,
                      step := toU32 app.checkpointFrequency } w.mDownloadDir) },
            State.WORK_PENDING) := by
  have h1' : w.mGetHistoryArchiveStateWork.isNone = false := by
    cases h : w.mGetHistoryArchiveStateWork <;> simp_all
  simp [onSuccess, h1', h2]

theorem onSuccess_phase3 (fuel : Nat) (app : Application) (w : FetchRecentQsetsWork)
    (h1 : w.mGetHistoryArchiveStateWork.isSome) (h2 : w.mDownloadSCPMessagesWork.isSome) :
    onSuccess fuel app w =
      scanPhase fuel app.files
        (firstSeq (toU32 app.checkpointFrequency) (toU32 w.mRemoteState))
        (toU32 w.mRemoteState) (toU32 app.checkpointFrequency) w := by
  have h1' : w.mGetHistoryArchiveStateWork.isNone = false := by
    cases h : w.mGetHistoryArchiveStateWork <;> simp_all
  have h2' : w.mDownloadSCPMessagesWork.isNone = false := by
    cases h : w.mDownloadSCPMessagesWork <;> simp_all
  simp [onSuccess, h1', h2']

theorem toU32_of_lt {n : Nat} (h : n < UINT32_SIZE) : toU32 n = n :=
  Nat.mod_eq_of_lt h

/-! ## Window sizing -/

/-- C1: for a 32-bit `step > 0` and a 32-bit `remoteLastCheckpoint ≥ step - 1`,
the `firstSeq` of `onSuccess` is at most `lastSeq`, and either `firstSeq + 1`
is a multiple of `step` or `firstSeq` is exactly `lastSeq - window` (with
`window ≤ lastSeq`, so that the difference is the true one). -/
theorem firstSeq_lower_bound (step remoteLastCheckpoint : Nat)
    (hs : step < UINT32_SIZE) (hl : remoteLastCheckpoint < UINT32_SIZE)
    (hpos : 0 < step) (hge : step - 1 ≤ remoteLastCheckpoint) :
    firstSeq step remoteLastCheckpoint ≤ remoteLastCheckpoint ∧
      ((firstSeq step remoteLastCheckpoint + 1) % step = 0 ∨
        (window step ≤ remoteLastCheckpoint ∧
          firstSeq step remoteLastCheckpoint = remoteLastCheckpoint - window step)) := by
  rcases Nat.lt_or_ge remoteLastCheckpoint (window step) with h | h
  · rw [firstSeq_of_lt hs h]
    refine ⟨hge, Or.inl ?_⟩
    rw [Nat.sub_add_cancel hpos]
    exact Nat.mod_self step
  · rw [firstSeq_of_ge hl h]
    exact ⟨Nat.sub_le _ _, Or.inr ⟨h, rfl⟩⟩

/-- Witness of C1 at `step = 64`, `remoteLastCheckpoint = 10000`. -/
theorem firstSeq_lower_bound_witness :
    firstSeq 64 10000 ≤ 10000 ∧
      ((firstSeq 64 10000 + 1) % 64 = 0 ∨
        (window 64 ≤ 10000 ∧ firstSeq 64 10000 = 10000 - window 64)) :=
  firstSeq_lower_bound 64 10000 (by decide) (by decide) (by decide) (by decide)

/-- C2 as stated fails: with `step = 42949673` the 32-bit product
`100 * step` wraps to `4`, so `remoteLastCheckpoint = 42949672` is below the
exact product `4294967300` and yet `firstSeq` is `42949672 - 4 = 42949668`,
not `step - 1 = 42949672`. -/
theorem firstSeq_clamp_exact_product_fails :
    (42949672 : Nat) < numCheckpoints * 42949673 ∧ 42949673 < UINT32_SIZE ∧
      42949672 < UINT32_SIZE ∧ window 42949673 = 4 ∧
      firstSeq 42949673 42949672 = 42949668 ∧
      firstSeq 42949673 42949672 ≠ 42949673 - 1 := by
  decide

/-- C2, amended: if `remoteLastCheckpoint` is below `window`, the 32-bit
product `numCheckpoints * step` that the code compares against, then
`firstSeq = step - 1`; in particular this holds whenever the exact product is
below `2 ^ 32` and `remoteLastCheckpoint` is below it. -/
theorem firstSeq_clamp (step remoteLastCheckpoint : Nat) (hs : step < UINT32_SIZE) :
    (remoteLastCheckpoint < window step → firstSeq step remoteLastCheckpoint = step - 1) ∧
      (numCheckpoints * step < UINT32_SIZE → remoteLastCheckpoint < numCheckpoints * step →
        firstSeq step remoteLastCheckpoint = step - 1) := by
  refine ⟨fun h => firstSeq_of_lt hs h, fun hno h => ?_⟩
  rw [← window_of_no_wrap hno] at h
  exact firstSeq_of_lt hs h

/-- Witness of C2 (amended) at `step = 64`, `remoteLastCheckpoint = 50`. -/
theorem firstSeq_clamp_witness :
    (50 : Nat) < window 64 ∧ numCheckpoints * 64 < UINT32_SIZE ∧
      (50 : Nat) < numCheckpoints * 64 ∧ firstSeq 64 50 = 63 :=
  ⟨by decide, by decide, by decide,
    (firstSeq_clamp 64 50 (by decide)).2 (by decide) (by decide)⟩

/-! ## The range handed to the download -/

/-- C3 as stated fails: `step = 42949673` is positive and
`remoteLastCheckpoint = 42949672 = step - 1` lies on a checkpoint boundary, but
the 32-bit `window` wraps to `4`, phase 2 spawns the download with the range
`{42949668, 42949672, 42949673}`, and `(last - first) % step = 4`. -/
theorem download_range_invalid_when_window_wraps :
    (0 : Nat) < 42949673 ∧ (42949672 + 1) % 42949673 = 0 ∧
      onSuccess 0 { checkpointFrequency := 42949673, files := fun _ => [] }
          (archiveStateFetched 42949672
            { constructed with
                mGetHistoryArchiveStateWork :=
                  some (Child.getHistoryArchiveStateWork "get-history-archive-state" 0 0) }) =
        some ({ constructed with
                  mGetHistoryArchiveStateWork :=
                    some (Child.getHistoryArchiveStateWork "get-history-archive-state" 0 0),
                  mRemoteState := 42949672,
                  mChildren :=
                    [Child.batchDownloadWork
                      { first := 42949668, last := 42949672, step := 42949673 } none],
                  mDownloadSCPMessagesWork :=
                    some (Child.batchDownloadWork
                      { first := 42949668, last := 42949672, step := 42949673 } none) },
              State.WORK_PENDING) ∧
      ¬ CheckpointRange.valid { first := 42949668, last := 42949672, step := 42949673 } := by
  refine ⟨by decide, by decide, ?_, by decide⟩
  rfl

/-- C3, amended: for every `step > 0` whose product `numCheckpoints * step`
fits in 32 bits and every 32-bit `remoteLastCheckpoint` on a checkpoint
boundary, phase 2 of `onSuccess` returns `WORK_PENDING` after spawning a
download whose range `{firstSeq, lastSeq, step}` has `first ≤ last` and
`(last - first) % step = 0`. -/
theorem download_range_valid (fuel : Nat) (app : Application) (w : FetchRecentQsetsWork)
    (harch : w.mGetHistoryArchiveStateWork.isSome)
    (hdl : w.mDownloadSCPMessagesWork = none)
    (hpos : 0 < app.checkpointFrequency)
    (hno : numCheckpoints * app.checkpointFrequency < UINT32_SIZE)
    (hl : w.mRemoteState < UINT32_SIZE)
    (hal : (w.mRemoteState + 1) % app.checkpointFrequency = 0) :
    ∃ (range : CheckpointRange) (w1 : FetchRecentQsetsWork),
      onSuccess fuel app w = some (w1, State.WORK_PENDING) ∧
      w1.mChildren = w.mChildren ++ [Child.batchDownloadWork range w.mDownloadDir] ∧
      w1.mDownloadSCPMessagesWork = some (Child.batchDownloadWork range w.mDownloadDir) ∧
      range = { first := firstSeq app.checkpointFrequency w.mRemoteState,
                last := w.mRemoteState, step := app.checkpointFrequency } ∧
      range.valid := by
  have hs : app.checkpointFrequency < UINT32_SIZE := by
    unfold numCheckpoints at hno
    omega
  refine ⟨_, _, onSuccess_phase2 fuel app w harch hdl, rfl, rfl, ?_, ?_⟩
  · rw [toU32_of_lt hs, toU32_of_lt hl]
  · rw [toU32_of_lt hs, toU32_of_lt hl]
    have hdvd : app.checkpointFrequency ∣ w.mRemoteState + 1 := Nat.dvd_of_mod_eq_zero hal
    have hge : app.checkpointFrequency ≤ w.mRemoteState + 1 := Nat.le_of_dvd (by omega) hdvd
    rcases Nat.lt_or_ge w.mRemoteState (window app.checkpointFrequency) with h | h
    · refine ⟨?_, ?_⟩
      · show firstSeq _ _ ≤ w.mRemoteState
        rw [firstSeq_of_lt hs h]
        omega
      · show (w.mRemoteState - firstSeq _ _) % app.checkpointFrequency = 0
        rw [firstSeq_of_lt hs h]
        have heq : w.mRemoteState - (app.checkpointFrequency - 1) =
            w.mRemoteState + 1 - app.checkpointFrequency := by omega
        rw [heq]
        exact Nat.mod_eq_zero_of_dvd (Nat.dvd_sub' hdvd (dvd_refl _))
    · refine ⟨?_, ?_⟩
      · show firstSeq _ _ ≤ w.mRemoteState
        rw [firstSeq_of_ge hl h]
        exact Nat.sub_le _ _
      · show (w.mRemoteState - firstSeq _ _) % app.checkpointFrequency = 0
        rw [firstSeq_of_ge hl h, Nat.sub_sub_self h, window_of_no_wrap hno]
        exact Nat.mul_mod_left _ _

/-- Witness of C3 (amended): `step = 64`, the archive at checkpoint `10047`
(`10048 = 157 * 64`), a node that holds its archive-state child. -/
theorem download_range_valid_witness :
    ∃ (range : CheckpointRange) (w1 : FetchRecentQsetsWork),
      onSuccess 0 { checkpointFrequency := 64, files := fun _ => [] }
          { constructed with
              mGetHistoryArchiveStateWork :=
                some (Child.getHistoryArchiveStateWork "get-history-archive-state" 0 0),
              mRemoteState := 10047 } = some (w1, State.WORK_PENDING) ∧
      w1.mChildren = [] ++ [Child.batchDownloadWork range none] ∧
      w1.mDownloadSCPMessagesWork = some (Child.batchDownloadWork range none) ∧
      range = { first := firstSeq 64 10047, last := 10047, step := 64 } ∧
      range.valid :=
  download_range_valid 0 { checkpointFrequency := 64, files := fun _ => [] }
    { constructed with
        mGetHistoryArchiveStateWork :=
          some (Child.getHistoryArchiveStateWork "get-history-archive-state" 0 0),
        mRemoteState := 10047 }
    rfl rfl (by decide) (by decide) (by decide) (by decide)

/-! ## The phases at given numbers -/

theorem onSuccess_phase2_at (fuel : Nat) (app : Application) (w : FetchRecentQsetsWork)
    (step last first : Nat)
    (h1 : w.mGetHistoryArchiveStateWork.isSome) (h2 : w.mDownloadSCPMessagesWork = none)
    (hfreq : app.checkpointFrequency = step) (hrem : w.mRemoteState = last)
    (hs : step < UINT32_SIZE) (hl : last < UINT32_SIZE)
    (hfirst : firstSeq step last = first) :
    onSuccess fuel app w =
      some ({ w with
                mChildren := w.mChildren ++
                  [Child.batchDownloadWork { first := first, last := last, step := step }
                    w.mDownloadDir],
                mDownloadSCPMessagesWork :=
                  some (Child.batchDownloadWork { first := first, last := last, step := step }
                    w.mDownloadDir) },
            State.WORK_PENDING) := by
  rw [onSuccess_phase2 fuel app w h1 h2, hfreq, hrem, toU32_of_lt hs, toU32_of_lt hl, hfirst]

theorem onSuccess_phase3_scan (fuel : Nat) (app : Application) (w : FetchRecentQsetsWork)
    (step last first : Nat)
    (h1 : w.mGetHistoryArchiveStateWork.isSome) (h2 : w.mDownloadSCPMessagesWork.isSome)
    (hfreq : app.checkpointFrequency = step) (hrem : w.mRemoteState = last)
    (hs : step < UINT32_SIZE) (hl : last < UINT32_SIZE)
    (hfirst : firstSeq step last = first) :
    onSuccess fuel app w = scanPhase fuel app.files first last step w := by
  subst hfreq hrem
  rw [onSuccess_phase3 fuel app w h1 h2, toU32_of_lt hs, toU32_of_lt hl, hfirst]

theorem scanPhase_empty (fuel : Nat) (files : Nat → List SCPHistoryEntry)
    (first last step : Nat) (w : FetchRecentQsetsWork) (h : last < first) :
    scanPhase (fuel + 1) files first last step w =
      some ({ w with events := w.events ++ [Event.handler ErrorCode.success] },
            State.WORK_SUCCESS) := by
  unfold scanPhase
  rw [scanLoop, if_neg (by omega)]

theorem onSuccess_phase3_empty (fuel : Nat) (app : Application) (w : FetchRecentQsetsWork)
    (step last first : Nat)
    (h1 : w.mGetHistoryArchiveStateWork.isSome) (h2 : w.mDownloadSCPMessagesWork.isSome)
    (hfreq : app.checkpointFrequency = step) (hrem : w.mRemoteState = last)
    (hs : step < UINT32_SIZE) (hl : last < UINT32_SIZE)
    (hfirst : firstSeq step last = first) (hempty : last < first) :
    onSuccess (fuel + 1) app w =
      some ({ w with events := w.events ++ [Event.handler ErrorCode.success] },
            State.WORK_SUCCESS) := by
  subst hfreq hrem
  rw [onSuccess_phase3 (fuel + 1) app w h1 h2, toU32_of_lt hs, toU32_of_lt hl, hfirst]
  exact scanPhase_empty fuel app.files first _ _ w hempty

theorem onSuccess_phase3_at (fuel : Nat) (app : Application) (w : FetchRecentQsetsWork)
    (step last first : Nat)
    (h1 : w.mGetHistoryArchiveStateWork.isSome) (h2 : w.mDownloadSCPMessagesWork.isSome)
    (hfreq : app.checkpointFrequency = step) (hrem : w.mRemoteState = last)
    (hfirst : firstSeq step last = first)
    (hstep : 0 < step) (hle : first ≤ last) (hwrap : last + step < UINT32_SIZE)
    (hfuel : (last - first) / step + 2 ≤ fuel) :
    onSuccess fuel app w =
      some ({ w with events := w.events ++ scanEvents app.files (enumeration first last step) ++
                       [Event.handler ErrorCode.success] },
            State.WORK_SUCCESS) := by
  have hs : step < UINT32_SIZE := by omega
  have hl : last < UINT32_SIZE := by omega
  subst hfreq hrem
  rw [onSuccess_phase3 fuel app w h1 h2, toU32_of_lt hs, toU32_of_lt hl, hfirst]
  exact scanPhase_eq app.files first _ _ fuel w hstep hle hwrap hfuel

/-! ## Runs -/

theorem runRounds_cons_of {r : Round} {rs : List Round} {w w1 w2 : FetchRecentQsetsWork}
    {st : State} {sts : List State}
    (h1 : onSuccess r.fuel r.app (childrenRun r.stored w) = some (w1, st))
    (h2 : runRounds rs w1 = some (w2, sts)) :
    runRounds (r :: rs) w = some (w2, st :: sts) := by
  rw [runRounds, h1]
  simp only []
  rw [h2]

theorem runRounds_cons_some {r : Round} {rs : List Round} {w w2 : FetchRecentQsetsWork}
    {sts : List State} (h : runRounds (r :: rs) w = some (w2, sts)) :
    ∃ (w1 : FetchRecentQsetsWork) (st : State) (sts1 : List State),
      onSuccess r.fuel r.app (childrenRun r.stored w) = some (w1, st) ∧
      runRounds rs w1 = some (w2, sts1) ∧ sts = st :: sts1 := by
  rw [runRounds] at h
  cases h1 : onSuccess r.fuel r.app (childrenRun r.stored w) with
  | none => rw [h1] at h; cases h
  | some p =>
    obtain ⟨w1, st⟩ := p
    rw [h1] at h
    simp only [] at h
    cases h2 : runRounds rs w1 with
    | none => rw [h2] at h; cases h
    | some q =>
      obtain ⟨w3, sts1⟩ := q
      rw [h2] at h
      simp only [Option.some.injEq, Prod.mk.injEq] at h
      exact ⟨w1, st, sts1, rfl, by rw [h2, h.1], h.2.symm⟩

/-! ## What one call of `onSuccess` does -/

theorem scanPhase_some {fuel : Nat} {files : Nat → List SCPHistoryEntry}
    {first last step : Nat} {w w1 : FetchRecentQsetsWork} {st : State}
    (h : scanPhase fuel files first last step w = some (w1, st)) :
    st = State.WORK_SUCCESS ∧
      ∃ (cps : List Nat),
        w1 = { w with events := w.events ++ scanEvents files cps ++
                        [Event.handler ErrorCode.success] } := by
  unfold scanPhase at h
  cases hs : scanLoop files last step fuel first w.events with
  | none => rw [hs] at h; cases h
  | some events =>
    rw [hs] at h
    simp only [Option.some.injEq, Prod.mk.injEq] at h
    obtain ⟨cps, hcps⟩ := scanLoop_appends files last step fuel first w.events events hs
    refine ⟨h.2.symm, cps, ?_⟩
    rw [← h.1, hcps]

/-- The three ways a call of `onSuccess` can return. -/
theorem onSuccess_cases {fuel : Nat} {app : Application} {w w1 : FetchRecentQsetsWork}
    {st : State} (h : onSuccess fuel app w = some (w1, st)) :
    (w.mGetHistoryArchiveStateWork = none ∧ st = State.WORK_PENDING ∧
        w1.mChildren = w.mChildren ++
          [Child.getHistoryArchiveStateWork "get-history-archive-state" 0 0] ∧
        w1.mGetHistoryArchiveStateWork.isSome ∧
        w1.mDownloadSCPMessagesWork = w.mDownloadSCPMessagesWork ∧
        w1.events = w.events) ∨
      (w.mGetHistoryArchiveStateWork.isSome ∧ w.mDownloadSCPMessagesWork = none ∧
        st = State.WORK_PENDING ∧
        (∃ (range : CheckpointRange), w1.mChildren = w.mChildren ++
          [Child.batchDownloadWork range w.mDownloadDir]) ∧
        w1.mGetHistoryArchiveStateWork = w.mGetHistoryArchiveStateWork ∧
        w1.events = w.events) ∨
      (w.mGetHistoryArchiveStateWork.isSome ∧ w.mDownloadSCPMessagesWork.isSome ∧
        st = State.WORK_SUCCESS ∧ w1.mChildren = w.mChildren ∧
        w1.mGetHistoryArchiveStateWork = w.mGetHistoryArchiveStateWork ∧
        w1.mDownloadSCPMessagesWork = w.mDownloadSCPMessagesWork ∧
        ∃ (cps : List Nat),
          w1.events = w.events ++ scanEvents app.files cps ++
            [Event.handler ErrorCode.success]) := by
  cases ha : w.mGetHistoryArchiveStateWork with
  | none =>
    rw [onSuccess_phase1 fuel app w ha] at h
    simp only [Option.some.injEq, Prod.mk.injEq] at h
    obtain ⟨hw, hst⟩ := h
    subst hw hst
    exact Or.inl ⟨rfl, rfl, rfl, rfl, rfl, rfl⟩
  | some a =>
    have ha1 : w.mGetHistoryArchiveStateWork.isSome := by rw [ha]; rfl
    cases hd : w.mDownloadSCPMessagesWork with
    | none =>
      rw [onSuccess_phase2 fuel app w ha1 hd] at h
      simp only [Option.some.injEq, Prod.mk.injEq] at h
      obtain ⟨hw, hst⟩ := h
      subst hw hst
      exact Or.inr (Or.inl ⟨rfl, rfl, rfl, ⟨_, rfl⟩, ha, rfl⟩)
    | some d =>
      have hd1 : w.mDownloadSCPMessagesWork.isSome := by rw [hd]; rfl
      rw [onSuccess_phase3 fuel app w ha1 hd1] at h
      obtain ⟨hst, cps, hw⟩ := scanPhase_some h
      subst hw hst
      exact Or.inr (Or.inr ⟨rfl, rfl, rfl, rfl, ha, hd, cps, rfl⟩)

theorem childrenRun_events (stored : Option Nat) (w : FetchRecentQsetsWork) :
    (childrenRun stored w).events = w.events := by
  cases stored <;> rfl

theorem onSuccess_pending {fuel : Nat} {app : Application} {w w1 : FetchRecentQsetsWork}
    (h : onSuccess fuel app w = some (w1, State.WORK_PENDING)) :
    w1.events = w.events := by
  rcases onSuccess_cases h with h1 | h1 | h1
  · exact h1.2.2.2.2.2
  · exact h1.2.2.2.2.2
  · exact absurd h1.2.2.1 (by decide)

theorem onSuccess_success {fuel : Nat} {app : Application} {w w1 : FetchRecentQsetsWork}
    (h : onSuccess fuel app w = some (w1, State.WORK_SUCCESS)) :
    ∃ (cps : List Nat),
      w1.events = w.events ++ scanEvents app.files cps ++
        [Event.handler ErrorCode.success] := by
  rcases onSuccess_cases h with h1 | h1 | h1
  · exact absurd h1.2.1 (by decide)
  · exact absurd h1.2.2.1 (by decide)
  · exact h1.2.2.2.2.2.2

/-- Handler calls of a trace extended by a scan and one successful call. -/
theorem handlerCalls_after_scan (events : List Event) (files : Nat → List SCPHistoryEntry)
    (cps : List Nat) :
    handlerCalls (events ++ scanEvents files cps ++ [Event.handler ErrorCode.success]) =
      handlerCalls events ++ [ErrorCode.success] := by
  rw [handlerCalls_append, handlerCalls_append, handlerCalls_scanEvents, List.append_nil]
  rfl

theorem runRounds_nil_results {rounds : List Round} {w w1 : FetchRecentQsetsWork}
    (h : runRounds rounds w = some (w1, [])) : w1 = w := by
  cases rounds with
  | nil =>
    rw [runRounds] at h
    simp only [Option.some.injEq, Prod.mk.injEq] at h
    exact h.1.symm
  | cons r rs =>
    obtain ⟨_, _, _, _, _, h3⟩ := runRounds_cons_some h
    cases h3

theorem runRounds_all_pending :
    ∀ (rounds : List Round) (w w1 : FetchRecentQsetsWork) (results : List State),
      runRounds rounds w = some (w1, results) →
      (∀ st, st ∈ results → st = State.WORK_PENDING) →
      w1.events = w.events := by
  intro rounds
  induction rounds with
  | nil =>
    intro w w1 results h _
    rw [runRounds] at h
    simp only [Option.some.injEq, Prod.mk.injEq] at h
    rw [← h.1]
  | cons r rs ih =>
    intro w w1 results h hall
    obtain ⟨w2, st, sts, h1, h2, h3⟩ := runRounds_cons_some h
    subst h3
    have hst : st = State.WORK_PENDING := hall st (List.mem_cons_self _ _)
    subst hst
    rw [ih w2 w1 sts h2 (fun s hs => hall s (List.mem_cons_of_mem _ hs)),
      onSuccess_pending h1, childrenRun_events]

theorem runRounds_until_success :
    ∀ (rounds : List Round) (w w1 : FetchRecentQsetsWork) (results : List State),
      runRounds rounds w = some (w1, results ++ [State.WORK_SUCCESS]) →
      (∀ st, st ∈ results → st = State.WORK_PENDING) →
      ∃ (scanned : List Event),
        w1.events = w.events ++ scanned ++ [Event.handler ErrorCode.success] ∧
        handlerCalls scanned = [] := by
  intro rounds
  induction rounds with
  | nil =>
    intro w w1 results h _
    rw [runRounds] at h
    simp at h
  | cons r rs ih =>
    intro w w1 results h hall
    obtain ⟨w2, st, sts, h1, h2, h3⟩ := runRounds_cons_some h
    cases results with
    | nil =>
      simp only [List.nil_append, List.cons.injEq] at h3
      obtain ⟨hst, hsts⟩ := h3
      subst hst hsts
      have hw : w1 = w2 := runRounds_nil_results h2
      obtain ⟨cps, hcps⟩ := onSuccess_success h1
      refine ⟨scanEvents r.app.files cps, ?_, handlerCalls_scanEvents _ _⟩
      rw [hw, hcps, childrenRun_events]
    | cons p ps =>
      simp only [List.cons_append, List.cons.injEq] at h3
      obtain ⟨hst, hsts⟩ := h3
      subst hst hsts
      have hp : p = State.WORK_PENDING := hall p (List.mem_cons_self _ _)
      subst hp
      obtain ⟨scanned, hev, hno⟩ :=
        ih w2 w1 ps h2 (fun s hs => hall s (List.mem_cons_of_mem _ hs))
      refine ⟨scanned, ?_, hno⟩
      rw [hev, onSuccess_pending h1, childrenRun_events]

/-- With no counter wrap the scan phase returns, whatever the range. -/
theorem scanPhase_returns (files : Nat → List SCPHistoryEntry) (first last step fuel : Nat)
    (w : FetchRecentQsetsWork) (hstep : 0 < step) (hwrap : last + step < UINT32_SIZE)
    (hfuel : last / step + 2 ≤ fuel) :
    ∃ (w1 : FetchRecentQsetsWork) (cps : List Nat),
      scanPhase fuel files first last step w = some (w1, State.WORK_SUCCESS) ∧
      w1.events = w.events ++ scanEvents files cps ++ [Event.handler ErrorCode.success] := by
  rcases Nat.lt_or_ge last first with h | h
  · obtain ⟨f, rfl⟩ : ∃ f, fuel = f + 1 :=
      ⟨fuel - 1, by have := Nat.zero_le (last / step); omega⟩
    refine ⟨_, [], scanPhase_empty f files first last step w h, ?_⟩
    rw [scanEvents_nil, List.append_nil]
  · have hdiv : (last - first) / step ≤ last / step :=
      Nat.div_le_div_right (Nat.sub_le _ _)
    exact ⟨_, _, scanPhase_eq files first last step fuel w hstep h hwrap (by omega), rfl⟩

/-! ## The degenerate range -/

/-- C4 as stated fails: with `remoteLastCheckpoint = 50` and `step = 64` the
second `onSuccess` call spawns a `BatchDownloadWork` child whose range has
`first = 63 > last = 50`; nothing in `onSuccess` detects it. -/
theorem degenerate_range_is_spawned :
    ∃ (w2 : FetchRecentQsetsWork) (range : CheckpointRange),
      runRounds
          [{ fuel := 0, app := { checkpointFrequency := 64, files := fun _ => [] },
             stored := none },
           { fuel := 0, app := { checkpointFrequency := 64, files := fun _ => [] },
             stored := some 50 }]
          (onReset 1 constructed) =
        some (w2, [State.WORK_PENDING, State.WORK_PENDING]) ∧
      w2.mDownloadSCPMessagesWork = some (Child.batchDownloadWork range (some 1)) ∧
      Child.batchDownloadWork range (some 1) ∈ w2.mChildren ∧
      range.last < range.first :=
  ⟨_, { first := 63, last := 50, step := 64 }, rfl, rfl, by decide, by decide⟩

/-- C4, amended: with `remoteLastCheckpoint = 50` and `step = 64` the
orchestrator does not detect the degenerate range: phase 2 spawns the
download child with the range `{63, 50, 64}` and returns `WORK_PENDING`; the
next call opens no file and notes no entry, invokes the handler once with the
zero error code and returns `WORK_SUCCESS`. -/
theorem degenerate_range_scans_nothing (files : Nat → List SCPHistoryEntry)
    (dir fuel1 fuel2 fuel3 : Nat) :
    runRounds
        [{ fuel := fuel1, app := { checkpointFrequency := 64, files := files },
           stored := none },
         { fuel := fuel2, app := { checkpointFrequency := 64, files := files },
           stored := some 50 },
         { fuel := fuel3 + 1, app := { checkpointFrequency := 64, files := files },
           stored := none }]
        (onReset dir constructed) =
      some ({ mChildren :=
                [Child.getHistoryArchiveStateWork "get-history-archive-state" 0 0,
                 Child.batchDownloadWork { first := 63, last := 50, step := 64 } (some dir)],
              mGetHistoryArchiveStateWork :=
                some (Child.getHistoryArchiveStateWork "get-history-archive-state" 0 0),
              mDownloadSCPMessagesWork :=
                some (Child.batchDownloadWork { first := 63, last := 50, step := 64 }
                  (some dir)),
              mDownloadDir := some dir,
              mRemoteState := 50,
              events := [Event.handler ErrorCode.success] },
            [State.WORK_PENDING, State.WORK_PENDING, State.WORK_SUCCESS]) :=
  runRounds_cons_of (onSuccess_phase1 fuel1 _ _ rfl)
    (runRounds_cons_of
      (onSuccess_phase2_at fuel2 _ _ 64 50 63 rfl rfl rfl rfl (by decide) (by decide)
        (by decide))
      (runRounds_cons_of
        (onSuccess_phase3_empty fuel3 _ _ 64 50 63 rfl rfl rfl rfl (by decide) (by decide)
          (by decide) (by decide))
        rfl))

/-! ## Reset -/

/-- C5, the code at the failing input: `onReset` clears the children and the
download handle but leaves `mGetHistoryArchiveStateWork` and `mRemoteState`
as they were, so for a node that holds its archive-state child the call of
`onSuccess` after `onReset` skips phase 1: it spawns a `BatchDownloadWork`
from the ledger number kept from before the reset, and no
`GetHistoryArchiveStateWork`. -/
theorem onReset_keeps_archive_state (fuel dir : Nat) (app : Application)
    (w : FetchRecentQsetsWork) (h : w.mGetHistoryArchiveStateWork.isSome) :
    (onReset dir w).mGetHistoryArchiveStateWork = w.mGetHistoryArchiveStateWork ∧
      (onReset dir w).mRemoteState = w.mRemoteState ∧
      (onReset dir w).mChildren = [] ∧
      (onReset dir w).mDownloadSCPMessagesWork = none ∧
      (onReset dir w).mDownloadDir = some dir ∧
      ∃ (w1 : FetchRecentQsetsWork),
        onSuccess fuel app (onReset dir w) = some (w1, State.WORK_PENDING) ∧
        w1.mChildren =
          [Child.batchDownloadWork
            { first := firstSeq (toU32 app.checkpointFrequency) (toU32 w.mRemoteState),
              last := toU32 w.mRemoteState,
              step := toU32 app.checkpointFrequency } (some dir)] :=
  ⟨rfl, rfl, rfl, rfl, rfl, _, onSuccess_phase2 fuel app (onReset dir w) h rfl, rfl⟩

/-- Witness of C5: a node that has fetched the
archive state (ledger `10000`) and spawned its download is reset with the new
directory `2`; the next `onSuccess` spawns the download `{3600, 10000, 64}`. -/
theorem onReset_keeps_archive_state_witness :
    ∃ (w1 : FetchRecentQsetsWork),
      onSuccess 0 { checkpointFrequency := 64, files := fun _ => [] }
          (onReset 2
            { constructed with
                mGetHistoryArchiveStateWork :=
                  some (Child.getHistoryArchiveStateWork "get-history-archive-state" 0 0),
                mRemoteState := 10000 }) = some (w1, State.WORK_PENDING) ∧
        w1.mChildren =
          [Child.batchDownloadWork { first := 3600, last := 10000, step := 64 } (some 2)] :=
  (onReset_keeps_archive_state 0 2 { checkpointFrequency := 64, files := fun _ => [] }
    { constructed with
        mGetHistoryArchiveStateWork :=
          some (Child.getHistoryArchiveStateWork "get-history-archive-state" 0 0),
        mRemoteState := 10000 } rfl).2.2.2.2.2

/-! ## Phase order -/

/-- C6: a call of `onSuccess` adds at most one child; when it adds one it
returns `WORK_PENDING`; it returns `WORK_SUCCESS` only if both the
archive-state handle and the download handle are set at entry; a call with
either handle null does return, with `WORK_PENDING` and exactly one new
child; and in every state reachable from the constructed node the download
handle is set only if the archive-state handle is. -/
theorem phase_order_one_per_step :
    (∀ (fuel : Nat) (app : Application) (w w1 : FetchRecentQsetsWork) (st : State),
        onSuccess fuel app w = some (w1, st) →
        (∃ (added : List Child), w1.mChildren = w.mChildren ++ added ∧ added.length ≤ 1 ∧
          (added ≠ [] → st = State.WORK_PENDING)) ∧
        (st = State.WORK_SUCCESS →
          w.mGetHistoryArchiveStateWork.isSome ∧ w.mDownloadSCPMessagesWork.isSome)) ∧
      (∀ (fuel : Nat) (app : Application) (w : FetchRecentQsetsWork),
        w.mGetHistoryArchiveStateWork = none ∨ w.mDownloadSCPMessagesWork = none →
        ∃ (w1 : FetchRecentQsetsWork) (c : Child),
          onSuccess fuel app w = some (w1, State.WORK_PENDING) ∧
          w1.mChildren = w.mChildren ++ [c]) ∧
      (∀ (w : FetchRecentQsetsWork), Reachable w →
        w.mDownloadSCPMessagesWork.isSome → w.mGetHistoryArchiveStateWork.isSome) := by
  refine ⟨?_, ?_, ?_⟩
  · intro fuel app w w1 st h
    rcases onSuccess_cases h with h1 | h1 | h1
    · refine ⟨⟨_, h1.2.2.1, by simp, fun _ => h1.2.1⟩, fun hs => ?_⟩
      rw [h1.2.1] at hs
      cases hs
    · obtain ⟨range, hr⟩ := h1.2.2.2.1
      refine ⟨⟨_, hr, by simp, fun _ => h1.2.2.1⟩, fun hs => ?_⟩
      rw [h1.2.2.1] at hs
      cases hs
    · exact ⟨⟨[], by rw [h1.2.2.2.1, List.append_nil], by simp, fun hne => absurd rfl hne⟩,
        fun _ => ⟨h1.1, h1.2.1⟩⟩
  · intro fuel app w h
    cases ha : w.mGetHistoryArchiveStateWork with
    | none => exact ⟨_, _, onSuccess_phase1 fuel app w ha, rfl⟩
    | some a =>
      have hd : w.mDownloadSCPMessagesWork = none := by
        rcases h with h | h
        · rw [ha] at h
          cases h
        · exact h
      exact ⟨_, _, onSuccess_phase2 fuel app w (by rw [ha]; rfl) hd, rfl⟩
  · intro w hw
    induction hw with
    | init => intro h; cases h
    | step fuel app _ hstep ih =>
      intro hd
      rcases onSuccess_cases hstep with h1 | h1 | h1
      · exact h1.2.2.2.1
      · rw [h1.2.2.2.2.1]
        exact h1.1
      · rw [h1.2.2.2.2.1]
        exact h1.1
    | reset dir _ _ => intro h; cases h
    | failure _ ih => exact ih
    | fetched l _ ih => exact ih

/-! ## The end handler -/

/-- C7: a call of `onSuccess` that returns `WORK_PENDING` leaves the trace as
it is: it neither invokes the end handler nor notes an entry; a call that
returns `WORK_SUCCESS` scans and then invokes the handler exactly once, with
the zero error code; hence in a run of calls, from any state, of which the
last is the first to return `WORK_SUCCESS`, the calls before the last leave
the trace alone and the whole run invokes the handler exactly once, with the
zero code, as its last act; such a run of three calls exists from a freshly
reset node whenever the loop counter cannot wrap; and `onFailureRaise`
invokes the handler exactly once, with `timed_out`, and does nothing else. -/
theorem handler_single_shot :
    (∀ (fuel : Nat) (app : Application) (w w1 : FetchRecentQsetsWork),
        onSuccess fuel app w = some (w1, State.WORK_PENDING) →
        w1.events = w.events) ∧
      (∀ (fuel : Nat) (app : Application) (w w1 : FetchRecentQsetsWork),
        onSuccess fuel app w = some (w1, State.WORK_SUCCESS) →
        (∃ (cps : List Nat),
          w1.events = w.events ++ scanEvents app.files cps ++
            [Event.handler ErrorCode.success]) ∧
        handlerCalls w1.events = handlerCalls w.events ++ [ErrorCode.success]) ∧
      (∀ (rounds : List Round) (w w1 : FetchRecentQsetsWork) (results : List State),
        runRounds rounds w = some (w1, results) →
        (∀ st, st ∈ results → st = State.WORK_PENDING) →
        w1.events = w.events) ∧
      (∀ (rounds : List Round) (w w1 : FetchRecentQsetsWork) (results : List State),
        runRounds rounds w = some (w1, results ++ [State.WORK_SUCCESS]) →
        (∀ st, st ∈ results → st = State.WORK_PENDING) →
        handlerCalls w1.events = handlerCalls w.events ++ [ErrorCode.success] ∧
        w1.events.getLast? = some (Event.handler ErrorCode.success)) ∧
      (∀ (dir fuel1 fuel2 fuel3 remote : Nat) (app : Application),
        0 < app.checkpointFrequency → remote + app.checkpointFrequency < UINT32_SIZE →
        remote / app.checkpointFrequency + 2 ≤ fuel3 →
        ∃ (w1 : FetchRecentQsetsWork),
          runRounds
              [{ fuel := fuel1, app := app, stored := none },
               { fuel := fuel2, app := app, stored := some remote },
               { fuel := fuel3, app := app, stored := none }]
              (onReset dir constructed) =
            some (w1, [State.WORK_PENDING, State.WORK_PENDING, State.WORK_SUCCESS]) ∧
          handlerCalls w1.events = [ErrorCode.success]) ∧
      (∀ (w : FetchRecentQsetsWork),
        (onFailureRaise w).events = w.events ++ [Event.handler ErrorCode.timed_out] ∧
        handlerCalls (onFailureRaise w).events =
          handlerCalls w.events ++ [ErrorCode.timed_out] ∧
        notedEntries (onFailureRaise w).events = notedEntries w.events) := by
  refine ⟨fun _ _ _ _ h => onSuccess_pending h, ?_, runRounds_all_pending, ?_, ?_, ?_⟩
  · intro fuel app w w1 h
    obtain ⟨cps, hcps⟩ := onSuccess_success h
    exact ⟨⟨cps, hcps⟩, by rw [hcps, handlerCalls_after_scan]⟩
  · intro rounds w w1 results h hall
    obtain ⟨scanned, hev, hno⟩ := runRounds_until_success rounds w w1 results h hall
    refine ⟨?_, ?_⟩
    · rw [hev, handlerCalls_append, handlerCalls_append, hno, List.append_nil]
      rfl
    · rw [hev, List.getLast?_append]
      rfl
  · intro dir fuel1 fuel2 fuel3 remote app hpos hwrap hfuel
    have hs : app.checkpointFrequency < UINT32_SIZE := by omega
    have hl : remote < UINT32_SIZE := by omega
    have h3 := onSuccess_phase3 fuel3 app
      { mChildren :=
          [Child.getHistoryArchiveStateWork "get-history-archive-state" 0 0,
           Child.batchDownloadWork
             { first := firstSeq app.checkpointFrequency remote, last := remote,
               step := app.checkpointFrequency } (some dir)],
        mGetHistoryArchiveStateWork :=
          some (Child.getHistoryArchiveStateWork "get-history-archive-state" 0 0),
        mDownloadSCPMessagesWork :=
          some (Child.batchDownloadWork
            { first := firstSeq app.checkpointFrequency remote, last := remote,
              step := app.checkpointFrequency } (some dir)),
        mDownloadDir := some dir, mRemoteState := remote, events := [] } rfl rfl
    simp only [] at h3
    rw [toU32_of_lt hs, toU32_of_lt hl] at h3
    obtain ⟨w1, cps, hscan, hev⟩ := scanPhase_returns app.files
      (firstSeq app.checkpointFrequency remote) remote app.checkpointFrequency fuel3
      { mChildren :=
          [Child.getHistoryArchiveStateWork "get-history-archive-state" 0 0,
           Child.batchDownloadWork
             { first := firstSeq app.checkpointFrequency remote, last := remote,
               step := app.checkpointFrequency } (some dir)],
        mGetHistoryArchiveStateWork :=
          some (Child.getHistoryArchiveStateWork "get-history-archive-state" 0 0),
        mDownloadSCPMessagesWork :=
          some (Child.batchDownloadWork
            { first := firstSeq app.checkpointFrequency remote, last := remote,
              step := app.checkpointFrequency } (some dir)),
        mDownloadDir := some dir, mRemoteState := remote, events := [] } hpos hwrap hfuel
    refine ⟨w1, ?_, ?_⟩
    · exact runRounds_cons_of (onSuccess_phase1 fuel1 app (onReset dir constructed) rfl)
        (runRounds_cons_of
          (onSuccess_phase2_at fuel2 app _ app.checkpointFrequency remote _ rfl rfl rfl rfl
            hs hl rfl)
          (runRounds_cons_of (h3.trans hscan) rfl))
    · rw [hev, handlerCalls_after_scan]
      rfl
  · intro w
    refine ⟨rfl, ?_, ?_⟩
    · show handlerCalls (w.events ++ [Event.handler ErrorCode.timed_out]) = _
      rw [handlerCalls_append]
      rfl
    · show notedEntries (w.events ++ [Event.handler ErrorCode.timed_out]) = _
      rw [notedEntries_append]
      exact List.append_nil _

/-! ## The scan -/

theorem scanPhase_never_returns (files : Nat → List SCPHistoryEntry) (first step fuel : Nat)
    (w : FetchRecentQsetsWork) (hfirst : first < UINT32_SIZE) :
    scanPhase fuel files first 4294967295 step w = none := by
  unfold scanPhase
  rw [scanLoop_never_exits files step fuel first _ hfirst]

/-- C8: with `remoteLastCheckpoint = 10000` and `step = 64` the window is
`6400` and `firstSeq` is `3600`; three calls of `onSuccess` from a freshly
reset node return `WORK_PENDING`, `WORK_PENDING`, `WORK_SUCCESS`; the children
spawned are exactly one archive-state fetch and one download with the range
`{3600, 10000, 64}`; the run opens exactly the 101 files `3600 + 64 * k`,
`k = 0..100`, in that order, notes the entries of each, and only then invokes
the handler, once, with the zero error code. -/
theorem end_to_end_10000 (files : Nat → List SCPHistoryEntry)
    (dir fuel1 fuel2 fuel3 : Nat) :
    window 64 = 6400 ∧ toU32 10000 = 10000 ∧ firstSeq 64 10000 = 3600 ∧
      ∃ (w1 : FetchRecentQsetsWork),
        runRounds
            [{ fuel := fuel1, app := { checkpointFrequency := 64, files := files },
               stored := none },
             { fuel := fuel2, app := { checkpointFrequency := 64, files := files },
               stored := some 10000 },
             { fuel := fuel3 + 102, app := { checkpointFrequency := 64, files := files },
               stored := none }]
            (onReset dir constructed) =
          some (w1, [State.WORK_PENDING, State.WORK_PENDING, State.WORK_SUCCESS]) ∧
        w1.mChildren =
          [Child.getHistoryArchiveStateWork "get-history-archive-state" 0 0,
           Child.batchDownloadWork { first := 3600, last := 10000, step := 64 } (some dir)] ∧
        w1.events =
          scanEvents files ((List.range 101).map (fun k => 3600 + 64 * k)) ++
            [Event.handler ErrorCode.success] ∧
        openedFiles w1.events = (List.range 101).map (fun k => 3600 + 64 * k) ∧
        (openedFiles w1.events).length = 101 ∧
        (openedFiles w1.events).head? = some 3600 ∧
        (openedFiles w1.events).getLast? = some 10000 ∧
        notedEntries w1.events =
          ((List.range 101).map (fun k => 3600 + 64 * k)).flatMap files ∧
        handlerCalls w1.events = [ErrorCode.success] := by
  have henum : enumeration 3600 10000 64 = (List.range 101).map (fun k => 3600 + 64 * k) := by
    unfold enumeration
    rfl
  have hev : ([] : List Event) ++ scanEvents files (enumeration 3600 10000 64) ++
      [Event.handler ErrorCode.success] =
      scanEvents files ((List.range 101).map (fun k => 3600 + 64 * k)) ++
        [Event.handler ErrorCode.success] := by
    rw [henum, List.nil_append]
  have hopen : openedFiles (scanEvents files ((List.range 101).map (fun k => 3600 + 64 * k)) ++
      [Event.handler ErrorCode.success]) = (List.range 101).map (fun k => 3600 + 64 * k) := by
    rw [openedFiles_append, openedFiles_scanEvents]
    exact List.append_nil _
  refine ⟨by decide, by decide, by decide, _,
    runRounds_cons_of (onSuccess_phase1 fuel1 _ _ rfl)
      (runRounds_cons_of
        (onSuccess_phase2_at fuel2 _ _ 64 10000 3600 rfl rfl rfl rfl (by decide) (by decide)
          (by decide))
        (runRounds_cons_of
          (onSuccess_phase3_at (fuel3 + 102) _ _ 64 10000 3600 rfl rfl rfl rfl (by decide)
            (by decide) (by decide) (by decide) (by omega))
          rfl)),
    rfl, hev, ?_, ?_, ?_, ?_, ?_, ?_⟩
  · exact (congrArg openedFiles hev).trans hopen
  · refine (congrArg List.length ((congrArg openedFiles hev).trans hopen)).trans ?_
    rw [List.length_map, List.length_range]
  · refine (congrArg List.head? ((congrArg openedFiles hev).trans hopen)).trans ?_
    rw [← henum]
    exact enumeration_head 3600 10000 64
  · refine (congrArg List.getLast? ((congrArg openedFiles hev).trans hopen)).trans ?_
    rw [← henum]
    exact enumeration_getLast 3600 10000 64 (by decide) (by decide)
  · refine (congrArg notedEntries hev).trans ?_
    rw [notedEntries_append, notedEntries_scanEvents]
    exact List.append_nil _
  · refine (congrArg handlerCalls hev).trans ?_
    rw [handlerCalls_append, handlerCalls_scanEvents]
    rfl

/-- C9 as stated fails: `{4294960895, 4294967295, 64}` is a valid range (it is
the one `onSuccess` computes for an archive at ledger `4294967295`), but
`i <= lastSeq` holds for every 32-bit `i`, the counter wraps, and the scan
does not terminate: no amount of fuel makes the scan phase, or the call of
`onSuccess` that runs it, return. -/
theorem scan_does_not_terminate_at_max_ledger :
    (0 : Nat) < 64 ∧ (4294960895 : Nat) ≤ 4294967295 ∧
      (4294967295 - 4294960895) % 64 = 0 ∧ 4294967295 < UINT32_SIZE ∧
      firstSeq 64 4294967295 = 4294960895 ∧
      (¬ ∃ (fuel : Nat),
        (scanPhase fuel (fun _ => []) 4294960895 4294967295 64 constructed).isSome = true) ∧
      (¬ ∃ (fuel : Nat),
        (onSuccess fuel { checkpointFrequency := 64, files := fun _ => [] }
          { constructed with
              mGetHistoryArchiveStateWork :=
                some (Child.getHistoryArchiveStateWork "get-history-archive-state" 0 0),
              mDownloadSCPMessagesWork :=
                some (Child.batchDownloadWork
                  { first := 4294960895, last := 4294967295, step := 64 } none),
              mRemoteState := 4294967295 }).isSome = true) := by
  refine ⟨by decide, by decide, by decide, by decide, by decide, ?_, ?_⟩
  · rintro ⟨fuel, h⟩
    rw [scanPhase_never_returns _ _ _ _ _ (by decide)] at h
    cases h
  · rintro ⟨fuel, h⟩
    have hcall := onSuccess_phase3_scan fuel { checkpointFrequency := 64, files := fun _ => [] }
      { constructed with
          mGetHistoryArchiveStateWork :=
            some (Child.getHistoryArchiveStateWork "get-history-archive-state" 0 0),
          mDownloadSCPMessagesWork :=
            some (Child.batchDownloadWork
              { first := 4294960895, last := 4294967295, step := 64 } none),
          mRemoteState := 4294967295 }
      64 4294967295 4294960895 rfl rfl rfl rfl (by decide) (by decide) (by decide)
    rw [hcall, scanPhase_never_returns _ _ _ _ _ (by decide)] at h
    cases h

/-- C9, amended: for a valid range (`step > 0`, `firstSeq ≤ lastSeq`,
`(lastSeq - firstSeq) % step = 0`) with `lastSeq + step < 2 ^ 32`, so that the
loop counter does not wrap, and for every assignment of entries to files, the
scan phase with enough fuel returns `WORK_SUCCESS`; what it does is: open the
file of `first`, note its entries, open the file of `first + step`, note its
entries, and so on up to `last`, then invoke the handler once with the zero
error code; the files opened are exactly `first, first + step, ..., last`, in
strictly increasing order (hence each once), and the entries noted are the
concatenation, in that order, of the entries of each file. -/
theorem scan_order_and_coverage (files : Nat → List SCPHistoryEntry)
    (first last step fuel : Nat) (w : FetchRecentQsetsWork)
    (hstep : 0 < step) (hle : first ≤ last) (hmod : (last - first) % step = 0)
    (hwrap : last + step < UINT32_SIZE) (hfuel : (last - first) / step + 2 ≤ fuel) :
    scanPhase fuel files first last step w =
        some ({ w with events := w.events ++ scanEvents files (enumeration first last step) ++
                         [Event.handler ErrorCode.success] },
              State.WORK_SUCCESS) ∧
      openedFiles (scanEvents files (enumeration first last step)) =
        enumeration first last step ∧
      notedEntries (scanEvents files (enumeration first last step)) =
        (enumeration first last step).flatMap files ∧
      handlerCalls (scanEvents files (enumeration first last step)) = [] ∧
      (enumeration first last step).Pairwise (fun a b => a < b) ∧
      (enumeration first last step).head? = some first ∧
      (enumeration first last step).getLast? = some last ∧
      (∀ (i : Nat), i ∈ enumeration first last step ↔
        first ≤ i ∧ i ≤ last ∧ (i - first) % step = 0) :=
  ⟨scanPhase_eq files first last step fuel w hstep hle hwrap hfuel,
    openedFiles_scanEvents files _, notedEntries_scanEvents files _,
    handlerCalls_scanEvents files _,
    enumeration_pairwise first last step hstep, enumeration_head first last step,
    enumeration_getLast first last step hle hmod,
    fun i => mem_enumeration first last step i hle hmod⟩

/-- Witness of C9 (amended): the range `{63, 191, 64}` over files that each
hold one entry, numbered like the checkpoint. -/
theorem scan_order_and_coverage_witness :
    scanPhase 4 (fun i => [i]) 63 191 64 constructed =
        some ({ constructed with
                  events := constructed.events ++
                    scanEvents (fun i => [i]) (enumeration 63 191 64) ++
                    [Event.handler ErrorCode.success] },
              State.WORK_SUCCESS) ∧
      openedFiles (scanEvents (fun i => [i]) (enumeration 63 191 64)) =
        enumeration 63 191 64 ∧
      notedEntries (scanEvents (fun i => [i]) (enumeration 63 191 64)) =
        (enumeration 63 191 64).flatMap (fun i => [i]) ∧
      handlerCalls (scanEvents (fun i => [i]) (enumeration 63 191 64)) = [] ∧
      (enumeration 63 191 64).Pairwise (fun a b => a < b) ∧
      (enumeration 63 191 64).head? = some 63 ∧
      (enumeration 63 191 64).getLast? = some 191 ∧
      (∀ (i : Nat), i ∈ enumeration 63 191 64 ↔ 63 ≤ i ∧ i ≤ 191 ∧ (i - 63) % 64 = 0) :=
  scan_order_and_coverage (fun i => [i]) 63 191 64 4 constructed (by decide) (by decide)
    (by decide) (by decide) (by decide)

/-! ## HerderUtils -/

section Herder

variable {Statement Value Hash Rest : Type}

theorem resize_nil {α : Type} (n : Nat) (d : α) : resize [] n d = List.replicate n d := by
  simp [resize]

/-- Writing `f` of every source element over a stretch of the destination as
long as the source replaces that stretch by the mapped source. -/
theorem transform_eq {α β : Type} (f : α → β) :
    ∀ (xs : List α) (pre old post : List β), old.length = xs.length →
      transform f xs pre.length (pre ++ old ++ post) = pre ++ xs.map f ++ post := by
  intro xs
  induction xs with
  | nil =>
    intro pre old post h
    have hold : old = [] := List.length_eq_zero.mp h
    subst hold
    simp [transform]
  | cons x xs ih =>
    intro pre old post h
    cases old with
    | nil => simp at h
    | cons o os =>
      have hlen : os.length = xs.length := by simpa using h
      have hset : (pre ++ o :: os ++ post).set pre.length (f x) =
          (pre ++ [f x]) ++ os ++ post := by
        simp [List.set_append]
      have hpre : pre.length + 1 = (pre ++ [f x]).length := by simp
      rw [transform, hset, hpre, ih (pre ++ [f x]) os post hlen]
      simp

theorem transform_replicate {α β : Type} (f : α → β) (xs : List α) (d : β) :
    transform f xs 0 (List.replicate xs.length d) = xs.map f := by
  have h := transform_eq f xs [] (List.replicate xs.length d) [] (by simp)
  simpa using h

theorem getPaysharesValues_eq_map (env : HerderEnv Statement Value Hash Rest)
    (statement : Statement) :
    getPaysharesValues env statement =
      (env.getStatementValues statement).map
        (fun v => env.xdr_from_opaque v env.emptyValue) := by
  unfold getPaysharesValues
  simp only [resize_nil]
  exact transform_replicate _ _ _

theorem getTxSetHashes_eq_map (env : HerderEnv Statement Value Hash Rest)
    (envelope : SCPEnvelope Statement) :
    getTxSetHashes env envelope =
      (getPaysharesValues env envelope.statement).map (fun sv => sv.txSetHash) := by
  unfold getTxSetHashes
  simp only [resize_nil]
  exact transform_replicate _ _ _

/-- C10: `getTxSetHashes` is `txSetHash` mapped over `getPaysharesValues`,
which is the XDR decoding mapped over `Slot::getStatementValues`; so the
result has as many elements as there are statement values, its `i`-th element
is the `txSetHash` of the decoding of the `i`-th statement value, and an empty
list of statement values gives an empty result. -/
theorem getTxSetHashes_projection (env : HerderEnv Statement Value Hash Rest)
    (envelope : SCPEnvelope Statement) :
    getTxSetHashes env envelope =
        (getPaysharesValues env envelope.statement).map (fun sv => sv.txSetHash) ∧
      getPaysharesValues env envelope.statement =
        (env.getStatementValues envelope.statement).map
          (fun v => env.xdr_from_opaque v env.emptyValue) ∧
      (getTxSetHashes env envelope).length =
        (env.getStatementValues envelope.statement).length ∧
      (getPaysharesValues env envelope.statement).length =
        (env.getStatementValues envelope.statement).length ∧
      (∀ (i : Nat),
        (getTxSetHashes env envelope)[i]? =
          ((getPaysharesValues env envelope.statement)[i]?).map (fun sv => sv.txSetHash)) ∧
      (∀ (i : Nat),
        (getPaysharesValues env envelope.statement)[i]? =
          ((env.getStatementValues envelope.statement)[i]?).map
            (fun v => env.xdr_from_opaque v env.emptyValue)) ∧
      (env.getStatementValues envelope.statement = [] → getTxSetHashes env envelope = []) := by
  have h1 := getTxSetHashes_eq_map env envelope
  have h2 := getPaysharesValues_eq_map env envelope.statement
  refine ⟨h1, h2, ?_, ?_, ?_, ?_, ?_⟩
  · rw [h1, h2, List.length_map, List.length_map]
  · rw [h2, List.length_map]
  · intro i
    rw [h1, List.getElem?_map]
  · intro i
    rw [h2, List.getElem?_map]
  · intro h
    rw [h1, h2, h]
    rfl

end Herder

end Payshares
